import Mathlib

/-!
Verification of the concurrency teaching examples of the `gobestpractice`
repository against its specification.

The Go snippets are shallowly embedded: a channel is a buffer together
with a closed flag, the producer goroutine of `GenerateRandomNumbers` is
rendered as the finite event trace it writes to its channel, the select
loops of the tests become explicit step functions over logical time, and
the purely sequential examples (functional options, the RWMutex-guarded
map, the nil-safe `Person` methods) become plain Lean functions.
`rand.Int` is abstracted as an arbitrary stream `gen : Nat → Int` of
produced values.
-/

namespace GoBest

/-- An event a goroutine performs on a channel it owns: emitting a value
or closing the channel.  Traces of these events model everything a
consumer can observe on the channel. -/
inductive ChanEvent where
  | emit (v : Int)
  | closeEv
deriving DecidableEq, Repr

/-- State of a Go channel of `int`: the values sent but not yet received,
and whether the owner has closed it.  From the semantics the repository
documents in its "Remember" list: reads of a closed channel yield the
zero value together with a `false` ok-flag, writes to a closed channel
panic. -/
structure Chan where
  buffer : List Int
  closed : Bool
deriving DecidableEq, Repr

/-- Result of a single receive `v, ok := <-c`: either a definite value
with its ok-flag and the channel afterwards, or the receive blocks
(open channel with nothing buffered). -/
inductive RecvResult where
  | got (v : Int) (ok : Bool) (after : Chan)
  | blocked
deriving DecidableEq, Repr

/-- Go receive: a buffered value is taken with `ok = true`; on a closed,
drained channel the zero value `0` is returned with `ok = false`; on an
open, empty channel the receive blocks. -/
def Chan.recv (c : Chan) : RecvResult :=
  match c.buffer with
  | v :: tl => .got v true ⟨tl, c.closed⟩
  | [] => if c.closed then .got 0 false c else .blocked

/-- The observable outcome of one channel operation. -/
inductive OpResult where
  | delivered
  | closedSignal
  | panicked
  | blocked
deriving DecidableEq, Repr

/-- A channel operation: an emit (send) of a value, or a receive. -/
inductive ChanOp where
  | send (v : Int)
  | receive
deriving DecidableEq, Repr

/-- Outcome of performing one operation on a channel, following the
semantics the repository documents: sending on a closed channel panics,
otherwise the value is enqueued; receiving yields a value, the closed
signal (`ok = false`), or blocks. -/
def opResult (c : Chan) (op : ChanOp) : OpResult :=
  match op with
  | .send _ => if c.closed then .panicked else .delivered
  | .receive =>
    match c.recv with
    | .got _ true _ => .delivered
    | .got _ false _ => .closedSignal
    | .blocked => .blocked

/-- The consumer loop of `TestClosingChannelPitfallFixed`: receive with
the two-valued form `value, ok := <-c` and `break LOOP` as soon as
`ok` is `false`.  `fuel` bounds the number of iterations we unfold; the
returned flag records whether the loop broke out (rather than running
out of fuel or blocking). -/
def consumeSteps : Nat → Chan → List Int × Bool
  | 0, _ => ([], false)
  | fuel + 1, c =>
    match c.recv with
    | .got v true c2 =>
      let p := consumeSteps fuel c2
      (v :: p.1, p.2)
    | .got _ false _ => ([], true)
    | .blocked => ([], false)

/-- The body of the goroutine of `GenerateRandomNumbers`, indexed by the
loop counter `i` and the number of emissions still to perform
(`amount - i`): emit `gen i` while iterations remain, then close the
channel once. -/
def produceAux (gen : Nat → Int) (i : Nat) : Nat → List ChanEvent
  | 0 => [.closeEv]
  | k + 1 => .emit (gen i) :: produceAux gen (i + 1) k

/-- `GenerateRandomNumbers` from `channels.go`, rendered as the trace of
events its goroutine performs on the channel it returns: `amount`
emissions of the random stream `gen`, then a single close. -/
def GenerateRandomNumbers (gen : Nat → Int) (amount : Nat) : List ChanEvent :=
  produceAux gen 0 amount

/-- The values a `for n := range c` consumer observes on a trace before
the channel closes. -/
def valuesBeforeClose : List ChanEvent → List Int
  | [] => []
  | .emit v :: rest => v :: valuesBeforeClose rest
  | .closeEv :: _ => []

/-- How many times a trace closes the channel. -/
def closeCount : List ChanEvent → Nat
  | [] => 0
  | .closeEv :: rest => closeCount rest + 1
  | .emit _ :: rest => closeCount rest

/-- Modelled from the spec: the repository describes Fan-In only in
prose ("consolidation of multiple input channels into a single output
channel; each input channel is consumed by its own go routine, all
writing to the same output channel").  The merger is rendered as a run
over a `schedule` of input indices: each step lets the forwarding task
of the scheduled input act — it republishes that input's next value, or
does nothing further if its input is already drained (its channel
closed, so the task has exited).  The run returns the forwarded values
in order together with the final state of the inputs. -/
def fanInRun (state : List (List Int)) : List Nat → List Int × List (List Int)
  | [] => ([], state)
  | i :: rest =>
    match state[i]? with
    | some (v :: tl) =>
      let p := fanInRun (state.set i tl) rest
      (v :: p.1, p.2)
    | _ => fanInRun state rest

/-- Modelled from the spec: the closing coordinator of the merger.  The
combined output trace is the forwarded values; the coordinator closes
the output channel exactly once, and only when every forwarding task has
exited, i.e. when every input is drained. -/
def fanInEvents (inputs : List (List Int)) (sched : List Nat) : List ChanEvent :=
  let p := fanInRun inputs sched
  if p.2.all List.isEmpty then p.1.map .emit ++ [.closeEv] else p.1.map .emit

/-- The multiset of values a finite channel sequence carries. -/
def msOf (l : List Int) : Multiset Int := (l : Multiset Int)

/-- Modelled from the spec: the Cancellation Signal has two states and
transitions `active → cancelled` exactly once, irreversibly.
(`NewCanceller` itself is not implemented in the repository; the tests
reach the same behaviour through `context.WithCancel`.) -/
inductive CancelState where
  | active
  | cancelled
deriving DecidableEq, Repr

/-- Modelled from the spec: `cancelFn` moves the signal to `cancelled`
from either state; it is a total function, so it returns normally —
it cannot fail, panic, or block. -/
def cancelFn : CancelState → CancelState := fun _ => .cancelled

/-- Modelled from the spec: the observation handle: `true` once the
signal is cancelled. -/
def observe : CancelState → Bool
  | .active => false
  | .cancelled => true

/-- State of an unbuffered channel at the moment of an optional write:
the receivers currently blocked on it (by id), and the hand-offs
completed so far. -/
structure Rendezvous where
  waiting : List Nat
  received : List (Nat × Int)
deriving DecidableEq, Repr

/-- The `select`-with-`default` write of `TestOptionalWrite` on an
unbuffered channel: with no ready receiver the `default` case runs and
the value is dropped (`false`, state unchanged); otherwise the first
waiting receiver completes the hand-off and gets exactly the sent
value. -/
def selectSendDefault (s : Rendezvous) (v : Int) : Bool × Rendezvous :=
  match s.waiting with
  | [] => (false, s)
  | r :: rest => (true, ⟨rest, s.received ++ [(r, v)]⟩)

/-- The receive loop of `TestFixedTimeout` in logical time.  The timeout
channel is created once before the loop and fires at absolute time `D`.
Iteration `n` selects between the producer's `n`-th value, which becomes
available at time `arrival n`, and the timeout: once the timeout has
fired (`D ≤ arrival n`) the loop breaks, otherwise it receives the value
and continues.  `fuel` bounds the unfolding; the flag records whether
the loop broke on the timeout. -/
def fixedLoop (gen : Nat → Int) (arrival : Nat → Nat) (D : Nat) :
    Nat → Nat → List Int × Bool
  | 0, _ => ([], false)
  | fuel + 1, n =>
    if D ≤ arrival n then ([], true)
    else
      let p := fixedLoop gen arrival D fuel (n + 1)
      (gen n :: p.1, p.2)

/-- The `connection` struct of the options example. -/
structure Connection where
  ip : String
  port : Int
deriving DecidableEq, Repr

/-- A `connectionOption` mutates the connection under construction. -/
def ConnectionOption := Connection → Connection

/-- `WithIP` from the options example. -/
def WithIP (ip : String) : ConnectionOption := fun c => { c with ip := ip }

/-- `WithPort` from the options example. -/
def WithPort (port : Int) : ConnectionOption := fun c => { c with port := port }

/-- `New` from the options example: start from the defaults
`ip = "default"`, `port = 0`, then apply the options in the order given
(`for idx := range opts`). -/
def New (opts : List ConnectionOption) : Connection :=
  opts.foldl (fun c o => o c) ⟨"default", 0⟩

/-- `connection.ToString`: `fmt.Sprintf("ip: %s, port: %d", ...)`. -/
def Connection.ToString (c : Connection) : String :=
  "ip: " ++ c.ip ++ ", port: " ++ toString c.port

/-- The `ThreadSafeMap` of the synchronization example, with the mutex
erased (it only serialises access) and the underlying Go
`map[string]string` kept as an association list so that an absent key
is represented distinctly from a stored empty string. -/
structure ThreadSafeMap where
  m : List (String × String)
deriving DecidableEq, Repr

/-- `Add`: Go map assignment `t.m[key] = value`, replacing any previous
binding of the key. -/
def ThreadSafeMap.Add (t : ThreadSafeMap) (key value : String) : ThreadSafeMap :=
  ⟨(key, value) :: t.m.filter fun p => ¬ p.1 = key⟩

/-- `Remove`: Go `delete(t.m, key)`. -/
def ThreadSafeMap.Remove (t : ThreadSafeMap) (key : String) : ThreadSafeMap :=
  ⟨t.m.filter fun p => ¬ p.1 = key⟩

/-- `Get`: a Go map read `t.m[key]`, which yields the zero value `""`
when the key is absent. -/
def ThreadSafeMap.Get (t : ThreadSafeMap) (key : String) : String :=
  match t.m.find? fun p => p.1 = key with
  | some p => p.2
  | none => ""

/-- A map to which nothing was ever added. -/
def ThreadSafeMap.empty : ThreadSafeMap := ⟨[]⟩

/-- The `Person` struct of the mocking example. -/
structure Person where
  Name : String
  LastName : String
deriving DecidableEq, Repr

/-- `Person.PrintName` with its pointer receiver: a `nil` receiver
(`none`) yields `""`, otherwise the `Name` field. -/
def PrintName : Option Person → String
  | none => ""
  | some p => p.Name

/-- `Person.PrintLastName` with its pointer receiver: a `nil` receiver
(`none`) yields `""`, otherwise the `LastName` field. -/
def PrintLastName : Option Person → String
  | none => ""
  | some p => p.LastName

theorem produceAux_eq (gen : Nat → Int) :
    ∀ k i, produceAux gen i k
      = ((List.range' i k).map fun j => ChanEvent.emit (gen j)) ++ [ChanEvent.closeEv] := by
  intro k
  induction k with
  | zero => intro i; simp [produceAux]
  | succ k ih => intro i; simp [produceAux, List.range'_succ, ih]

theorem valuesBeforeClose_emits (vs : List Int) :
    valuesBeforeClose ((vs.map ChanEvent.emit) ++ [ChanEvent.closeEv]) = vs := by
  induction vs with
  | nil => simp [valuesBeforeClose]
  | cons v tl ih => simpa [valuesBeforeClose] using ih

theorem closeCount_emits (vs : List Int) :
    closeCount ((vs.map ChanEvent.emit) ++ [ChanEvent.closeEv]) = 1 := by
  induction vs with
  | nil => rfl
  | cons v tl ih => simpa [closeCount] using ih

/-- C1: `GenerateRandomNumbers gen amount` produces the trace of exactly
`amount` emissions of the stream `gen`, in emission order, followed by a
single close of its own channel: a consumer observes exactly `amount`
values before closure, and the channel is closed exactly once, after the
last emission, with no separate done flag in the trace. -/
theorem generateRandomNumbers_spec (gen : Nat → Int) (amount : Nat) :
    GenerateRandomNumbers gen amount
      = (((List.range amount).map gen).map ChanEvent.emit) ++ [ChanEvent.closeEv]
    ∧ valuesBeforeClose (GenerateRandomNumbers gen amount) = (List.range amount).map gen
    ∧ (valuesBeforeClose (GenerateRandomNumbers gen amount)).length = amount
    ∧ closeCount (GenerateRandomNumbers gen amount) = 1 := by
  have htr : GenerateRandomNumbers gen amount
      = (((List.range amount).map gen).map ChanEvent.emit) ++ [ChanEvent.closeEv] := by
    simpa [GenerateRandomNumbers, List.range_eq_range', Function.comp]
      using produceAux_eq gen amount 0
  refine ⟨htr, ?_, ?_, ?_⟩
  · rw [htr, valuesBeforeClose_emits]
  · rw [htr, valuesBeforeClose_emits]; simp
  · rw [htr, closeCount_emits]

/-- C3: the Canceller's `cancelFn` is idempotent — a second call leaves
the signal in the same `cancelled` state the first call produced — and,
being a total function, it returns normally from either state (it cannot
fail, panic, or block). -/
theorem cancelFn_idempotent :
    ∀ s : CancelState,
      cancelFn (cancelFn s) = cancelFn s
      ∧ cancelFn s = CancelState.cancelled
      ∧ observe (cancelFn s) = true := by
  intro s
  exact ⟨rfl, rfl, rfl⟩

/-- C4 (counterexample): the claim "every emit or receive operation
attempted after the channel's owner has closed it does not panic" is
false on the code: the repository's own "Remember" list states that
writing to a closed channel causes a panic, and indeed sending `5` on a
closed channel yields the `panicked` outcome. -/
theorem opsAfterClose_claim_false :
    ¬ ∀ (c : Chan) (op : ChanOp),
        c.closed = true → opResult c op ≠ OpResult.panicked := by
  intro h
  exact h ⟨[], true⟩ (ChanOp.send 5) rfl rfl

/-- C4 (amended): a receive attempted after the owner closed the channel
never panics and never blocks — once the buffer is drained it yields the
definite closed indication; an emit attempted after close, by contrast,
panics, which the design prevents structurally by the
single-owner-closes discipline rather than handling at runtime. -/
theorem recvAfterClose_safe (c : Chan) (h : c.closed = true) :
    opResult c ChanOp.receive ≠ OpResult.panicked
    ∧ opResult c ChanOp.receive ≠ OpResult.blocked
    ∧ (c.buffer = [] → opResult c ChanOp.receive = OpResult.closedSignal)
    ∧ (∀ v : Int, opResult c (ChanOp.send v) = OpResult.panicked) := by
  obtain ⟨buf, cl⟩ := c
  simp only at h
  subst h
  cases buf with
  | nil => simp [opResult, Chan.recv]
  | cons v tl => simp [opResult, Chan.recv]

/-- Witness for the amended C4 at the closed, drained channel. -/
theorem recvAfterClose_safe_witness :
    (Chan.mk [] true).closed = true
    ∧ (opResult ⟨[], true⟩ ChanOp.receive ≠ OpResult.panicked
      ∧ opResult ⟨[], true⟩ ChanOp.receive ≠ OpResult.blocked
      ∧ ((Chan.mk [] true).buffer = [] →
          opResult ⟨[], true⟩ ChanOp.receive = OpResult.closedSignal)
      ∧ (∀ v : Int, opResult ⟨[], true⟩ (ChanOp.send v) = OpResult.panicked)) :=
  ⟨rfl, recvAfterClose_safe ⟨[], true⟩ rfl⟩

theorem consumeSteps_closed (buf : List Int) :
    consumeSteps (buf.length + 1) ⟨buf, true⟩ = (buf, true) := by
  induction buf with
  | nil => rfl
  | cons v tl ih =>
    show (v :: (consumeSteps (tl.length + 1) ⟨tl, true⟩).1,
        (consumeSteps (tl.length + 1) ⟨tl, true⟩).2) = (v :: tl, true)
    rw [ih]

/-- C5: every read of a closed channel yields a definite value together
with the explicit open/closed indicator (it never blocks); on a drained
closed channel it is the zero value with `ok = false`, while a genuine
buffered value — even `0` — is delivered with `ok = true`, so the two
are distinguishable; and the consumer loop that breaks on `ok = false`
drains the channel and terminates after exactly the buffered values,
instead of spinning on the default value. -/
theorem recv_exposes_indicator (c : Chan) (h : c.closed = true) :
    (∃ v ok c2, c.recv = RecvResult.got v ok c2)
    ∧ (c.buffer = [] → c.recv = RecvResult.got 0 false c)
    ∧ (∀ v tl, c.buffer = v :: tl → c.recv = RecvResult.got v true ⟨tl, true⟩)
    ∧ consumeSteps (c.buffer.length + 1) c = (c.buffer, true) := by
  obtain ⟨buf, cl⟩ := c
  simp only at h
  subst h
  refine ⟨?_, ?_, ?_, consumeSteps_closed buf⟩
  · cases buf with
    | nil => exact ⟨0, false, _, rfl⟩
    | cons v tl => exact ⟨v, true, _, rfl⟩
  · intro hb
    subst hb
    rfl
  · intro v tl hb
    subst hb
    rfl

/-- Witness for C5 at a closed channel buffering the single value `0`:
the real zero value is delivered with `ok = true`, distinguishing it
from the closed indication. -/
theorem recv_exposes_indicator_witness :
    (Chan.mk [0] true).closed = true
    ∧ ((∃ v ok c2, (Chan.mk [0] true).recv = RecvResult.got v ok c2)
      ∧ ((Chan.mk [0] true).buffer = [] →
          (Chan.mk [0] true).recv = RecvResult.got 0 false ⟨[0], true⟩)
      ∧ (∀ v tl, (Chan.mk [0] true).buffer = v :: tl →
          (Chan.mk [0] true).recv = RecvResult.got v true ⟨tl, true⟩)
      ∧ consumeSteps ((Chan.mk [0] true).buffer.length + 1) ⟨[0], true⟩
          = ([0], true)) :=
  ⟨rfl, recv_exposes_indicator ⟨[0], true⟩ rfl⟩

/-- C6: the non-blocking send-or-discard on an unbuffered channel: with
zero ready consumers it returns at once with the `discarded` outcome
(`false`) and the state unchanged — the value is dropped, nobody receives
it; with at least one ready consumer it returns the `delivered` outcome
(`true`) and that consumer receives exactly the sent value. -/
theorem optionalWrite_spec :
    (∀ (rcv : List (Nat × Int)) (v : Int),
      selectSendDefault ⟨[], rcv⟩ v = (false, ⟨[], rcv⟩))
    ∧ (∀ (r : Nat) (rest : List Nat) (rcv : List (Nat × Int)) (v : Int),
      selectSendDefault ⟨r :: rest, rcv⟩ v = (true, ⟨rest, rcv ++ [(r, v)]⟩)) := by
  exact ⟨fun _ _ => rfl, fun _ _ _ _ => rfl⟩

/-- C8: `New` starts from `ip = "default"`, `port = 0` and applies the
options strictly left to right, so `New()` prints
`"ip: default, port: 0"` and when two options set the same field the
later one wins. -/
theorem new_options_spec :
    (New []).ToString = "ip: default, port: 0"
    ∧ (∀ (opts : List ConnectionOption) (o : ConnectionOption),
        New (opts ++ [o]) = o (New opts))
    ∧ (∀ a b : String, (New [WithIP a, WithIP b]).ip = b)
    ∧ (∀ p q : Int, (New [WithPort p, WithPort q]).port = q) := by
  refine ⟨?_, ?_, ?_, ?_⟩
  · rfl
  · intro opts o; simp [New, List.foldl_append]
  · intro a b; rfl
  · intro p q; rfl

/-- C9: on the `ThreadSafeMap`, `Get` right after `Add k v` returns `v`;
`Get` right after `Remove k` returns `""`; `Get` on a key never added
returns `""`; consequently a stored empty value is indistinguishable
from an absent key at the `Get` interface. -/
theorem threadSafeMap_spec :
    ∀ (t : ThreadSafeMap) (k v : String),
      (t.Add k v).Get k = v
      ∧ (t.Remove k).Get k = ""
      ∧ ThreadSafeMap.empty.Get k = ""
      ∧ (t.Add k "").Get k = (t.Remove k).Get k := by
  intro t k v
  have hfind : ∀ l : List (String × String),
      (l.filter fun p => ¬ p.1 = k).find? (fun p => p.1 = k) = none := by
    intro l
    induction l with
    | nil => rfl
    | cons a tl ih =>
      by_cases h : a.1 = k
      · simp [List.filter, h, ih]
      · simp [List.filter, h, List.find?, decide_eq_true_eq, ih]
  have hAdd : ∀ w, (t.Add k w).Get k = w := by
    intro w
    simp [ThreadSafeMap.Add, ThreadSafeMap.Get, List.find?]
  have hRem : (t.Remove k).Get k = "" := by
    simp only [ThreadSafeMap.Remove, ThreadSafeMap.Get]
    rw [hfind t.m]
  exact ⟨hAdd v, hRem, rfl, by rw [hAdd "", hRem]⟩

theorem flatten_set_perm :
    ∀ (state : List (List Int)) (i : Nat) (v : Int) (tl : List Int),
      state[i]? = some (v :: tl) →
      state.flatten.Perm (v :: (state.set i tl).flatten) := by
  intro state
  induction state with
  | nil => intro i v tl h; simp at h
  | cons hd rest ih =>
    intro i v tl h
    cases i with
    | zero =>
      rw [List.getElem?_cons_zero] at h
      obtain rfl : hd = v :: tl := by injection h
      simp
    | succ j =>
      rw [List.getElem?_cons_succ] at h
      have hperm := ih j v tl h
      have h1 : (hd ++ rest.flatten).Perm (hd ++ (v :: (rest.set j tl).flatten)) :=
        hperm.append_left hd
      have h2 : (hd ++ (v :: (rest.set j tl).flatten)).Perm
          (v :: (hd ++ (rest.set j tl).flatten)) := List.perm_middle
      simpa using h1.trans h2

theorem fanInRun_perm (sched : List Nat) :
    ∀ state : List (List Int),
      ((fanInRun state sched).1 ++ (fanInRun state sched).2.flatten).Perm
        state.flatten := by
  induction sched with
  | nil => intro state; simp [fanInRun]
  | cons i rest ih =>
    intro state
    match hget : state[i]? with
    | some (v :: tl) =>
      have hstep : fanInRun state (i :: rest)
          = (v :: (fanInRun (state.set i tl) rest).1,
             (fanInRun (state.set i tl) rest).2) := by
        simp [fanInRun, hget]
      rw [hstep]
      exact (List.Perm.cons v (ih (state.set i tl))).trans
        (flatten_set_perm state i v tl hget).symm
    | some [] =>
      have hstep : fanInRun state (i :: rest) = fanInRun state rest := by
        simp [fanInRun, hget]
      rw [hstep]
      exact ih state
    | none =>
      have hstep : fanInRun state (i :: rest) = fanInRun state rest := by
        simp [fanInRun, hget]
      rw [hstep]
      exact ih state

theorem msOf_flatten :
    ∀ L : List (List Int), msOf L.flatten = (L.map msOf).sum := by
  intro L
  induction L with
  | nil => rfl
  | cons l rest ih =>
    show msOf (l ++ rest.flatten) = (msOf l :: rest.map msOf).sum
    rw [List.sum_cons, ← ih]
    exact (Multiset.coe_add l rest.flatten).symm

/-- C2: a completed Fan-In run (every forwarding task has seen its input
drain and exit) delivers on the combined output exactly the multiset
union of all input Values, closes the output exactly once, and the close
is the last event — while a run in which some input is still open emits
no close at all, so the output is closed only after every input channel
has closed. -/
theorem fanIn_spec (inputs : List (List Int)) (sched : List Nat)
    (h : (fanInRun inputs sched).2.all List.isEmpty = true) :
    fanInEvents inputs sched
      = (((fanInRun inputs sched).1.map ChanEvent.emit) ++ [ChanEvent.closeEv])
    ∧ msOf (fanInRun inputs sched).1 = (inputs.map msOf).sum
    ∧ closeCount (fanInEvents inputs sched) = 1
    ∧ valuesBeforeClose (fanInEvents inputs sched) = (fanInRun inputs sched).1
    ∧ (∀ sched2 : List Nat,
        (fanInRun inputs sched2).2.all List.isEmpty = false →
        closeCount (fanInEvents inputs sched2) = 0) := by
  have hev : fanInEvents inputs sched
      = (((fanInRun inputs sched).1.map ChanEvent.emit) ++ [ChanEvent.closeEv]) := by
    simp [fanInEvents, h]
  have hflat : (fanInRun inputs sched).2.flatten = [] := by
    rw [List.flatten_eq_nil_iff]
    intro l hl
    have := List.all_eq_true.mp h l hl
    simpa [List.isEmpty_iff] using this
  have hperm : (fanInRun inputs sched).1.Perm inputs.flatten := by
    have := fanInRun_perm sched inputs
    rwa [hflat, List.append_nil] at this
  have hmult : msOf (fanInRun inputs sched).1 = (inputs.map msOf).sum := by
    rw [← msOf_flatten]
    exact Quot.sound hperm
  have hnoclose : ∀ vs : List Int, closeCount (vs.map ChanEvent.emit) = 0 := by
    intro vs
    induction vs with
    | nil => rfl
    | cons v tl ih => simpa [closeCount] using ih
  refine ⟨hev, hmult, ?_, ?_, ?_⟩
  · rw [hev, closeCount_emits]
  · rw [hev, valuesBeforeClose_emits]
  · intro sched2 h2
    simp only [fanInEvents, h2]
    simpa using hnoclose (fanInRun inputs sched2).1

/-- Witness for C2: the spec's concrete scenario — three producers
emitting `{1,2,3}`, `{4,5,6}`, `{7,8,9}`, fully drained by a schedule;
the combined output carries the nine values and a single final close. -/
theorem fanIn_spec_witness :
    (fanInRun [[1, 2, 3], [4, 5, 6], [7, 8, 9]]
        [0, 0, 0, 1, 1, 1, 2, 2, 2]).2.all List.isEmpty = true
    ∧ (fanInEvents [[1, 2, 3], [4, 5, 6], [7, 8, 9]] [0, 0, 0, 1, 1, 1, 2, 2, 2]
      = (((fanInRun [[1, 2, 3], [4, 5, 6], [7, 8, 9]]
            [0, 0, 0, 1, 1, 1, 2, 2, 2]).1.map ChanEvent.emit) ++ [ChanEvent.closeEv])
    ∧ msOf (fanInRun [[1, 2, 3], [4, 5, 6], [7, 8, 9]]
          [0, 0, 0, 1, 1, 1, 2, 2, 2]).1
        = ([[1, 2, 3], [4, 5, 6], [7, 8, 9]].map msOf).sum
    ∧ closeCount (fanInEvents [[1, 2, 3], [4, 5, 6], [7, 8, 9]]
        [0, 0, 0, 1, 1, 1, 2, 2, 2]) = 1
    ∧ valuesBeforeClose (fanInEvents [[1, 2, 3], [4, 5, 6], [7, 8, 9]]
        [0, 0, 0, 1, 1, 1, 2, 2, 2])
      = (fanInRun [[1, 2, 3], [4, 5, 6], [7, 8, 9]] [0, 0, 0, 1, 1, 1, 2, 2, 2]).1
    ∧ (∀ sched2 : List Nat,
        (fanInRun [[1, 2, 3], [4, 5, 6], [7, 8, 9]] sched2).2.all List.isEmpty = false →
        closeCount (fanInEvents [[1, 2, 3], [4, 5, 6], [7, 8, 9]] sched2) = 0)) :=
  ⟨by decide, fanIn_spec [[1, 2, 3], [4, 5, 6], [7, 8, 9]]
    [0, 0, 0, 1, 1, 1, 2, 2, 2] (by decide)⟩

theorem strictMono_le_self (arrival : Nat → Nat) (h : StrictMono arrival) :
    ∀ n, n ≤ arrival n := by
  intro n
  induction n with
  | zero => exact Nat.zero_le _
  | succ m ih =>
    have hlt : arrival m < arrival (m + 1) := h (Nat.lt_succ_self m)
    omega

theorem range_map_shift (gen : Nat → Int) (n k : Nat) :
    (List.range (k + 1)).map (fun i => gen (n + i))
      = gen n :: (List.range k).map fun i => gen (n + 1 + i) := by
  have harg : ((fun i => gen (n + i)) ∘ Nat.succ) = fun i => gen (n + 1 + i) := by
    funext i
    show gen (n + (i + 1)) = gen (n + 1 + i)
    congr 1
    omega
  rw [List.range_succ_eq_map, List.map_cons, List.map_map, harg, Nat.add_zero]

theorem fixedLoop_run (gen : Nat → Int) (arrival : Nat → Nat) (D : Nat) :
    ∀ (k fuel n : Nat), k < fuel →
      (∀ i, i < k → arrival (n + i) < D) → D ≤ arrival (n + k) →
      fixedLoop gen arrival D fuel n
        = ((List.range k).map fun i => gen (n + i), true) := by
  intro k
  induction k with
  | zero =>
    intro fuel n hfuel hbefore hafter
    match fuel, hfuel with
    | f + 1, _ =>
      have hD : D ≤ arrival n := by simpa using hafter
      simp [fixedLoop, hD]
  | succ k ih =>
    intro fuel n hfuel hbefore hafter
    match fuel, hfuel with
    | f + 1, hf =>
      have h0 : arrival n < D := by simpa using hbefore 0 (Nat.succ_pos k)
      have hrec := ih f (n + 1) (Nat.lt_of_succ_lt_succ hf)
        (fun i hi => by
          have h2 := hbefore (i + 1) (Nat.succ_lt_succ hi)
          rwa [show n + (i + 1) = n + 1 + i by omega] at h2)
        (by
          have h2 := hafter
          rwa [show n + (k + 1) = n + 1 + k by omega] at h2)
      have hnot : ¬ D ≤ arrival n := Nat.not_le.mpr h0
      have hstep : fixedLoop gen arrival D (f + 1) n
          = (gen n :: (fixedLoop gen arrival D f (n + 1)).1,
             (fixedLoop gen arrival D f (n + 1)).2) := by
        simp [fixedLoop, hnot]
      rw [hstep, hrec, range_map_shift]

/-- C7: for every timeout duration `D` and every producer that emits
forever (its emissions arriving at strictly increasing logical times
`arrival`), the receive loop of `TestFixedTimeout` — whose timeout
channel is created once before the loop and therefore fires at the
absolute time `D`, unaffected by how many Values are received — breaks
on the timeout after some `k ≤ D` received Values: it terminates within
`D` plus no further slack in this model, independently of the emission
rate, having received exactly the Values that arrived before `D`. -/
theorem fixedTimeout_spec (gen : Nat → Int) (arrival : Nat → Nat) (D : Nat)
    (h : StrictMono arrival) :
    ∃ k, k ≤ D
      ∧ (∀ i, i < k → arrival i < D)
      ∧ D ≤ arrival k
      ∧ fixedLoop gen arrival D (D + 1) 0 = ((List.range k).map gen, true) := by
  have hex : ∃ n, D ≤ arrival n := ⟨D, strictMono_le_self arrival h D⟩
  refine ⟨Nat.find hex, Nat.find_min' hex (strictMono_le_self arrival h D), ?_,
    Nat.find_spec hex, ?_⟩
  · intro i hi
    exact Nat.lt_of_not_le (Nat.find_min hex hi)
  · have hrun := fixedLoop_run gen arrival D (Nat.find hex) (D + 1) 0
      (Nat.lt_succ_of_le (Nat.find_min' hex (strictMono_le_self arrival h D)))
      (fun i hi => by simpa using Nat.lt_of_not_le (Nat.find_min hex hi))
      (by simpa using Nat.find_spec hex)
    simpa using hrun

/-- Witness for C7: with values arriving at times `0, 1, 2, …` and the
timeout at `D = 3`, the loop breaks on the timeout after the three
values that arrived before time 3. -/
theorem fixedTimeout_spec_witness :
    StrictMono (fun n : Nat => n)
    ∧ ∃ k, k ≤ 3
      ∧ (∀ i, i < k → (fun n : Nat => n) i < 3)
      ∧ 3 ≤ (fun n : Nat => n) k
      ∧ fixedLoop (fun n : Nat => (n : Int)) (fun n : Nat => n) 3 (3 + 1) 0
          = ((List.range k).map (fun n : Nat => (n : Int)), true) :=
  ⟨strictMono_id,
    fixedTimeout_spec (fun n : Nat => (n : Int)) (fun n : Nat => n) 3 strictMono_id⟩

/-- C10: `PrintName` and `PrintLastName` on a `nil` receiver return `""`
without panicking (they are total functions), and on a non-nil receiver
return exactly the `Name` and `LastName` fields; being pure, they leave
the receiver unchanged. -/
theorem printName_nil_safe :
    PrintName none = ""
    ∧ PrintLastName none = ""
    ∧ ∀ p : Person,
        PrintName (some p) = p.Name ∧ PrintLastName (some p) = p.LastName := by
  exact ⟨rfl, rfl, fun p => ⟨rfl, rfl⟩⟩

end GoBest
